import Mathlib

/-!
Verification of the KWeX conversational interview session orchestrator
(`app/services/chat_survey_service.py`, `app/api/v1/endpoints/chat_surveys.py`,
`app/models/models.py`, `app/schemas/schemas.py`).

The Python service is shallowly embedded: the per-session database state is a
`SessionState` value, each service operation is a pure function from the state
(plus the outcomes of the fallible external generation collaborator, passed as
`Option`-valued oracles) to `Except`-wrapped results, and Python floats on the
1-5 / 0-1 / 0-100 scales are modelled by `ℚ`.

One ORM subtlety is modelled explicitly: within a single `process_user_message`
request the `session.messages` relationship collection is loaded once (before
the turn's inserts, which only set the `session_id` foreign key and therefore
never update the already-loaded collection), so every later
`len(session.messages)` inside the same request still sees the pre-turn
snapshot.  In the embedding that snapshot is the `messages` field of the input
state.
-/

namespace ChatSurvey

/-- `FrictionType` enum from `models.py` (declaration order preserved). -/
inductive FrictionType where
  | clarity
  | tooling
  | process
  | rework
  | delay
  | safety
deriving DecidableEq, Repr, Fintype

/-- `list(FrictionType)`: the six dimensions in enum declaration order
(`ChatSurveyService.FRICTION_DIMENSIONS`, and the iteration order of every
dict keyed by the enum). -/
def FrictionType.all : List FrictionType :=
  [.clarity, .tooling, .process, .rework, .delay, .safety]

/-- `FrictionType.value`: the string payload of each enum member. -/
def FrictionType.value : FrictionType → String
  | .clarity => "clarity"
  | .tooling => "tooling"
  | .process => "process"
  | .rework => "rework"
  | .delay => "delay"
  | .safety => "safety"

/-- `FrictionType(s)` constructor call: `some` member whose value is `s`,
`none` models the `ValueError` branch. -/
def frictionTypeOfValue (s : String) : Option FrictionType :=
  FrictionType.all.find? (fun d => d.value == s)

/-- `ChatSessionStatus` enum from `models.py`. -/
inductive ChatSessionStatus where
  | started
  | inProgress
  | ratingConfirmation
  | completed
  | abandoned
deriving DecidableEq, Repr

/-- `ChatMessageRole` enum from `models.py`. -/
inductive ChatMessageRole where
  | system
  | assistant
  | user
deriving DecidableEq, Repr

/-- `ChatMessage` row (`models.py`), restricted to the fields the orchestrator
reads or writes; token/latency metadata is omitted. -/
structure ChatMessage where
  role : ChatMessageRole
  content : String
  dimensionContext : Option FrictionType := none
  isRatingConfirmation : Bool := false
  sequence : ℕ
deriving DecidableEq, Repr

/-- `ChatExtractedRating` row (`models.py`).  `createdAt` models the
`created_at` timestamp as the insertion counter: successive inserts get
strictly increasing values, which is what `ORDER BY created_at` observes. -/
structure ChatExtractedRating where
  dimension : FrictionType
  aiInferredScore : ℚ
  aiConfidence : ℚ
  aiReasoning : Option String
  userConfirmed : Bool
  userAdjustedScore : Option ℚ
  finalScore : ℚ
  keyQuotes : Option (List String)
  summaryComment : Option String
  createdAt : ℕ
deriving DecidableEq, Repr

/-- `ChatSummary` row (`models.py`); pain points and sentiments are opaque
payloads copied from the generation output. -/
structure ChatSummary where
  executiveSummary : String
  keyPainPoints : List String
  positiveAspects : List String
  improvementSuggestions : List String
  overallSentiment : String
  dimensionSentiments : List (String × String)
deriving DecidableEq, Repr

/-- The `dimensions_covered` JSON dict `{dim.value: bool}` with its six fixed
keys. -/
structure DimCovered where
  clarityCov : Bool
  toolingCov : Bool
  processCov : Bool
  reworkCov : Bool
  delayCov : Bool
  safetyCov : Bool
deriving DecidableEq, Repr

def DimCovered.get (dc : DimCovered) : FrictionType → Bool
  | .clarity => dc.clarityCov
  | .tooling => dc.toolingCov
  | .process => dc.processCov
  | .rework => dc.reworkCov
  | .delay => dc.delayCov
  | .safety => dc.safetyCov

def DimCovered.set (dc : DimCovered) (d : FrictionType) (b : Bool) : DimCovered :=
  match d with
  | .clarity => {dc with clarityCov := b}
  | .tooling => {dc with toolingCov := b}
  | .process => {dc with processCov := b}
  | .rework => {dc with reworkCov := b}
  | .delay => {dc with delayCov := b}
  | .safety => {dc with safetyCov := b}

/-- `{dim.value: False for dim in FrictionType}` at session creation. -/
def DimCovered.initFalse : DimCovered := ⟨false, false, false, false, false, false⟩

/-- `all(session.dimensions_covered.values())`. -/
def DimCovered.isComplete (dc : DimCovered) : Bool :=
  FrictionType.all.all dc.get

/-- The per-session slice of the database owned by the orchestrator. -/
structure SessionState where
  status : ChatSessionStatus
  currentDimension : Option FrictionType
  dimensionsCovered : DimCovered
  messages : List ChatMessage
  ratings : List ChatExtractedRating
  summary : Option ChatSummary
deriving DecidableEq, Repr

/-- Caller-visible failures (`ValueError` / `HTTPException` classes). -/
inductive ServiceError where
  | invalidSessionState
  | ratingNotFound
  | ratingsUnconfirmed (count : ℕ)
  | validationError
  | cannotAbandonCompleted
deriving DecidableEq, Repr

/-! ### String helpers: Python `str.lower()` and `keyword in text` -/

/-- ASCII `str.lower()` on a single character (all source keywords and probe
texts are ASCII). -/
def asciiLower (c : Char) : Char :=
  if c.toNat ≥ 65 ∧ c.toNat ≤ 90 then Char.ofNat (c.toNat + 32) else c

/-- Python `s.lower()` for ASCII text. -/
def pyLower (s : String) : String := ⟨s.data.map asciiLower⟩

def listStartsWith : List Char → List Char → Bool
  | [], _ => true
  | _ :: _, [] => false
  | p :: ps, c :: cs => p == c && listStartsWith ps cs

def listContainsSeq (pat : List Char) : List Char → Bool
  | [] => pat.isEmpty
  | c :: cs => listStartsWith pat (c :: cs) || listContainsSeq pat cs

/-- Python `pat in hay` substring test. -/
def strContainsSub (hay pat : String) : Bool :=
  listContainsSeq pat.data hay.data

/-! ### Dimension detection (`_detect_dimension_from_content`) -/

/-- The `dimension_keywords` dict, in insertion order. -/
def dimensionKeywords : FrictionType → List String
  | .clarity => ["requirements", "unclear", "objectives", "expectations", "understand", "definition"]
  | .tooling => ["tools", "software", "systems", "technology", "equipment", "applications"]
  | .process => ["process", "workflow", "procedure", "steps", "bureaucracy", "approval"]
  | .rework => ["redo", "rework", "revision", "change", "mistake", "error", "fix"]
  | .delay => ["wait", "delay", "block", "stuck", "pending", "queue", "slow"]
  | .safety => ["comfortable", "safe", "fear", "concern", "speak up", "admit", "help"]

/-- `_detect_dimension_from_content`: first dimension (in dict order) any of
whose keywords occurs in the lowered concatenation of assistant and user
content; `none` when no keyword matches. -/
def detectDimensionFromContent (assistantContent userContent : String) : Option FrictionType :=
  let combined := pyLower (assistantContent ++ " " ++ userContent)
  FrictionType.all.find? (fun d => (dimensionKeywords d).any (fun kw => strContainsSub combined kw))

/-! ### Score normalization -/

/-- `_normalize_score`: map the 1-5 scale onto 0-100. -/
def normalizeScore (score : ℚ) : ℚ :=
  ((score - 1) / 4) * 100

/-! ### `_generate_response` -/

/-- The `response_data` dict produced by `_generate_response`. -/
structure ResponseData where
  content : String
  dimension : Option FrictionType
  dimensionCovered : Bool
deriving DecidableEq, Repr

/-- Fallback assistant reply on `LLMError`. -/
def fallbackResponseContent : String :=
  "Thank you for sharing that. Can you tell me more about the challenges you face in your day-to-day work?"

/-- `_generate_response`: the generation collaborator outcome is the oracle
`gen` (`some content` on success, `none` for any `LLMError`).  On success the
keyword classifier runs over the reply and the user text; `dimension_covered`
is set when the detected dimension is not in the covered list built from the
session's coverage dict. -/
def generateResponse (gen : Option String) (covered : DimCovered) (userContent : String) :
    ResponseData :=
  match gen with
  | some content =>
      let coveredList := FrictionType.all.filter covered.get
      let dimension := detectDimensionFromContent content userContent
      { content := content
        dimension := dimension
        dimensionCovered :=
          match dimension with
          | some d => !(coveredList.contains d)
          | none => false }
  | none =>
      { content := fallbackResponseContent, dimension := none, dimensionCovered := false }

/-! ### Rating extraction (`_extract_all_ratings`, `_start_rating_confirmation`) -/

/-- One entry of the `ratings` list in the structured extraction output;
`confidence`, `reasoning`, `key_quotes`, `summary_comment` model the
`dict.get` accesses on optionally-present keys. -/
structure RawRating where
  dimension : String
  score : ℚ
  confidence : Option ℚ
  reasoning : Option String
  keyQuotes : Option (List String)
  summaryComment : Option String
deriving DecidableEq, Repr

/-- The neutral default entry appended for a dimension missing from a
successful extraction output. -/
def neutralMissingRaw (d : FrictionType) : RawRating :=
  { dimension := d.value
    score := 3
    confidence := some 0.3
    reasoning := some "Dimension not adequately discussed in conversation."
    keyQuotes := some []
    summaryComment := none }

/-- The neutral entry produced for every dimension on a total generation
failure (`except LLMError` branch of `_extract_all_ratings`). -/
def neutralFailureRaw (d : FrictionType) : RawRating :=
  { dimension := d.value
    score := 3
    confidence := some 0.3
    reasoning := some "Unable to extract rating from conversation."
    keyQuotes := some []
    summaryComment := none }

/-- `_extract_all_ratings`: `outcome` is the generation oracle — `some entries`
is the parsed `response.get("ratings", [])` list, `none` is `LLMError`.  On
success, a neutral default entry is appended for every dimension whose value
string does not occur among the returned entries (in enum order); on failure,
every dimension gets the neutral failure entry. -/
def extractAllRatings (outcome : Option (List RawRating)) : List RawRating :=
  match outcome with
  | some entries =>
      let existingDims := entries.map RawRating.dimension
      entries ++
        (FrictionType.all.filter (fun d => !(existingDims.contains d.value))).map neutralMissingRaw
  | none => FrictionType.all.map neutralFailureRaw

/-- The `ChatExtractedRating` row built for one extraction entry
(`_start_rating_confirmation` loop body): confidence defaults to 0.8 when the
entry has no `confidence` key, `final_score` is the normalized inferred
score, `user_confirmed` starts false.  `idx` is the insertion counter giving
the row its `created_at` order. -/
def makeRatingRow (idx : ℕ) (d : FrictionType) (raw : RawRating) : ChatExtractedRating :=
  { dimension := d
    aiInferredScore := raw.score
    aiConfidence := raw.confidence.getD 0.8
    aiReasoning := raw.reasoning
    userConfirmed := false
    userAdjustedScore := none
    finalScore := normalizeScore raw.score
    keyQuotes := raw.keyQuotes
    summaryComment := raw.summaryComment
    createdAt := idx }

/-- The storage loop of `_start_rating_confirmation`: entries whose dimension
string is not a valid `FrictionType` value are skipped (`except ValueError:
continue`); every stored row consumes one insertion-counter tick. -/
def ratingRowsAux (idx : ℕ) : List RawRating → List ChatExtractedRating
  | [] => []
  | raw :: rest =>
      match frictionTypeOfValue raw.dimension with
      | none => ratingRowsAux idx rest
      | some d => makeRatingRow idx d raw :: ratingRowsAux (idx + 1) rest

/-! ### Confirmation selection (`_get_next_unconfirmed_rating`) -/

/-- First row of `ORDER BY created_at ASC`: the element with the least
`createdAt`, the earlier-inserted one on (unreachable) ties. -/
def earliestByCreatedAt : List ChatExtractedRating → Option ChatExtractedRating
  | [] => none
  | r :: rs =>
      match earliestByCreatedAt rs with
      | none => some r
      | some m => if r.createdAt ≤ m.createdAt then some r else some m

/-- `_get_next_unconfirmed_rating`: the unconfirmed row of the session with the
least `created_at`, `none` when every row is confirmed. -/
def getNextUnconfirmed (ratings : List ChatExtractedRating) : Option ChatExtractedRating :=
  earliestByCreatedAt (ratings.filter (fun r => r.userConfirmed == false))

/-! ### Fallback texts and session operations -/

/-- `DIMENSION_DESCRIPTIONS[dim]["name"]` (`chat_prompts.py`). -/
def dimensionDisplayName : FrictionType → String
  | .clarity => "Clarity"
  | .tooling => "Tooling"
  | .process => "Process"
  | .rework => "Rework"
  | .delay => "Delay"
  | .safety => "Safety"

/-- Python `round()` on a rational: nearest integer, ties to even. -/
def pyRound (q : ℚ) : ℤ :=
  let f := ⌊q⌋
  if q - f < 1 / 2 then f
  else if 1 / 2 < q - f then f + 1
  else if Even f then f else f + 1

/-- Canned opening message used when the opening generation call fails. -/
def fallbackOpeningContent (occupationName : String) : String :=
  "Hi! Thanks for taking the time to chat with me today. I\x27m here to learn about your work experience as a "
    ++ occupationName
    ++ " - what\x27s working well and what could be better. This usually takes about 10-15 minutes, and your responses are completely anonymous. To start, can you tell me a bit about your typical work day or any recent challenges you\x27ve faced?"

/-- Canned wrap-up message used when the wrap-up generation call fails. -/
def fallbackWrapUpContent : String :=
  "Thank you so much for sharing all of that with me! I really appreciate your openness. Before we wrap up, I\x27d like to quickly confirm a few ratings to make sure I understood your experience correctly."

/-- Canned rating-confirmation prompt used when its generation call fails. -/
def fallbackConfirmationContent (d : FrictionType) (score : ℚ) : String :=
  "Based on what you shared about " ++ pyLower (dimensionDisplayName d)
    ++ ", I\x27d estimate around " ++ toString (pyRound score)
    ++ " out of 5. Does that feel right, or would you rate it differently?"

/-- `start_session` after survey validation: a fresh `STARTED` session whose
coverage dict is all-false, holding only the opening assistant message at
sequence 0 (generated content on success, the canned opening on failure). -/
def startSession (openingGen : Option String) (occupationName : String) : SessionState :=
  let openingMsg : ChatMessage :=
    { role := .assistant
      content :=
        match openingGen with
        | some c => c
        | none => fallbackOpeningContent occupationName
      dimensionContext := none
      isRatingConfirmation := false
      sequence := 0 }
  { status := .started
    currentDimension := none
    dimensionsCovered := DimCovered.initFalse
    messages := [openingMsg]
    ratings := []
    summary := none }

/-- The dict returned by `process_user_message`. -/
structure TurnResult where
  userMessage : ChatMessage
  assistantMessage : ChatMessage
  sessionStatus : ChatSessionStatus
  currentDimension : Option FrictionType
  dimensionsCovered : DimCovered
  pendingRatingConfirmation : Option ChatExtractedRating
deriving DecidableEq, Repr

/-- `process_user_message`.  Oracles: `gen` for `_generate_response`,
`extractOut` for `_extract_all_ratings`, `wrapUpOut` for
`_generate_wrap_up_message`.  Rejects `COMPLETED`/`ABANDONED` sessions;
auto-promotes `STARTED` to `IN_PROGRESS`; appends the user message at
`len(session.messages)` and the assistant reply one above it; marks the
detected dimension covered; and when that completes coverage of an
`IN_PROGRESS` session, runs `_start_rating_confirmation` inline — which reads
`len(session.messages)` from the stale pre-turn relationship snapshot when it
assigns the wrap-up message its sequence. -/
def processUserMessage (s : SessionState) (userContent : String) (gen : Option String)
    (extractOut : Option (List RawRating)) (wrapUpOut : Option String) :
    Except ServiceError (SessionState × TurnResult) :=
  if s.status = .completed ∨ s.status = .abandoned then
    .error .invalidSessionState
  else
    let status1 := if s.status = .started then ChatSessionStatus.inProgress else s.status
    let messageCount := s.messages.length
    let userMsg : ChatMessage :=
      { role := .user
        content := userContent
        dimensionContext := s.currentDimension
        isRatingConfirmation := false
        sequence := messageCount }
    let rd := generateResponse gen s.dimensionsCovered userContent
    let assistantMsg : ChatMessage :=
      { role := .assistant
        content := rd.content
        dimensionContext := rd.dimension
        isRatingConfirmation := false
        sequence := messageCount + 1 }
    let currentDim1 :=
      match rd.dimension with
      | some d => some d
      | none => s.currentDimension
    let covered1 :=
      match rd.dimension with
      | some d => if rd.dimensionCovered then s.dimensionsCovered.set d true else s.dimensionsCovered
      | none => s.dimensionsCovered
    if covered1.isComplete ∧ status1 = .inProgress then
      -- `_start_rating_confirmation`: store one row per extraction entry, then
      -- append the wrap-up message; `len(session.messages)` still evaluates on
      -- the collection loaded before this turn's two inserts.
      let newRows := ratingRowsAux s.ratings.length (extractAllRatings extractOut)
      let ratings1 := s.ratings ++ newRows
      let wrapUpMsg : ChatMessage :=
        { role := .assistant
          content :=
            match wrapUpOut with
            | some c => c
            | none => fallbackWrapUpContent
          dimensionContext := none
          isRatingConfirmation := false
          sequence := s.messages.length }
      let s' : SessionState :=
        { status := .ratingConfirmation
          currentDimension := currentDim1
          dimensionsCovered := covered1
          messages := s.messages ++ [userMsg, assistantMsg, wrapUpMsg]
          ratings := ratings1
          summary := s.summary }
      .ok (s',
        { userMessage := userMsg
          assistantMessage := assistantMsg
          sessionStatus := .ratingConfirmation
          currentDimension := currentDim1
          dimensionsCovered := covered1
          pendingRatingConfirmation := getNextUnconfirmed ratings1 })
    else
      let s' : SessionState :=
        { status := status1
          currentDimension := currentDim1
          dimensionsCovered := covered1
          messages := s.messages ++ [userMsg, assistantMsg]
          ratings := s.ratings
          summary := s.summary }
      .ok (s',
        { userMessage := userMsg
          assistantMessage := assistantMsg
          sessionStatus := status1
          currentDimension := currentDim1
          dimensionsCovered := covered1
          pendingRatingConfirmation := none })

/-! ### `confirm_rating` -/

/-- The dict returned by `confirm_rating`. -/
structure ConfirmResult where
  rating : ChatExtractedRating
  nextDimension : Option FrictionType
  allConfirmed : Bool
  assistantMessage : Option ChatMessage
deriving DecidableEq, Repr

/-- The in-place mutation of the found rating row: `user_confirmed = True`
always; a supplied adjustment on a non-confirmation stores the adjusted score
and renormalizes from it, otherwise `final_score` is renormalized from the
AI-inferred score. -/
def applyConfirmation (confirmed : Bool) (adjustedScore : Option ℚ)
    (r : ChatExtractedRating) : ChatExtractedRating :=
  match confirmed, adjustedScore with
  | false, some a =>
      { r with userConfirmed := true, userAdjustedScore := some a, finalScore := normalizeScore a }
  | _, _ =>
      { r with userConfirmed := true, finalScore := normalizeScore r.aiInferredScore }

/-- Mutate the first row matching `p` in place (the ORM update of the row
returned by `.filter(...).first()`). -/
def updateFirst (p : α → Bool) (f : α → α) : List α → List α
  | [] => []
  | x :: xs => if p x then f x :: xs else x :: updateFirst p f xs

/-- `confirm_rating` (service layer — note it performs no session-status
check of its own; that guard lives in the API endpoint).  Oracle `genAck`
models `_generate_rating_confirmation_message` for the next pending rating. -/
def confirmRating (s : SessionState) (dimension : FrictionType) (confirmed : Bool)
    (adjustedScore : Option ℚ) (genAck : Option String) :
    Except ServiceError (SessionState × ConfirmResult) :=
  match s.ratings.find? (fun r => r.dimension == dimension) with
  | none => .error .ratingNotFound
  | some r0 =>
      let r1 := applyConfirmation confirmed adjustedScore r0
      let ratings1 :=
        updateFirst (fun r => r.dimension == dimension) (applyConfirmation confirmed adjustedScore)
          s.ratings
      match getNextUnconfirmed ratings1 with
      | some nr =>
          let msg : ChatMessage :=
            { role := .assistant
              content :=
                match genAck with
                | some c => c
                | none => fallbackConfirmationContent nr.dimension nr.aiInferredScore
              dimensionContext := some nr.dimension
              isRatingConfirmation := true
              sequence := s.messages.length }
          .ok ({ s with ratings := ratings1, messages := s.messages ++ [msg] },
            { rating := r1
              nextDimension := some nr.dimension
              allConfirmed := false
              assistantMessage := some msg })
      | none =>
          .ok ({ s with ratings := ratings1 },
            { rating := r1
              nextDimension := none
              allConfirmed := true
              assistantMessage := none })

/-! ### `complete_session` and summary generation -/

/-- The parsed structured summary output (`response.get(...)` keys, each
optionally present). -/
structure SummaryPayload where
  executiveSummary : Option String
  keyPainPoints : Option (List String)
  positiveAspects : Option (List String)
  improvementSuggestions : Option (List String)
  overallSentiment : Option String
  dimensionSentiments : Option (List (String × String))
deriving DecidableEq, Repr

/-- `_generate_summary`: per-key defaults on a successful generation, the
fixed stub summary on `LLMError` — never a failure. -/
def generateSummary (outcome : Option SummaryPayload) : ChatSummary :=
  match outcome with
  | some p =>
      { executiveSummary := p.executiveSummary.getD "Summary could not be generated."
        keyPainPoints := p.keyPainPoints.getD []
        positiveAspects := p.positiveAspects.getD []
        improvementSuggestions := p.improvementSuggestions.getD []
        overallSentiment := p.overallSentiment.getD "neutral"
        dimensionSentiments := p.dimensionSentiments.getD [] }
  | none =>
      { executiveSummary := "Summary generation failed."
        keyPainPoints := []
        positiveAspects := []
        improvementSuggestions := []
        overallSentiment := "neutral"
        dimensionSentiments := [] }

/-- The dict returned by `complete_session` (state fields aside). -/
structure CompletionResult where
  metricsCalculated : Bool
deriving DecidableEq, Repr

/-- `complete_session`: rejects while any rating is unconfirmed; otherwise
stores the (possibly stub) summary, marks the session `COMPLETED`, and
reports whether the metrics hand-off succeeded — `metricsOk` is the outcome
of the `MetricsCalculator` call, whose failure is swallowed (`except
Exception: pass`) and never blocks completion.  Synthetic answer rows and the
response-record bookkeeping are outside the modelled state. -/
def completeSession (s : SessionState) (summaryGen : Option SummaryPayload) (metricsOk : Bool) :
    Except ServiceError (SessionState × CompletionResult) :=
  if (s.ratings.filter (fun r => r.userConfirmed == false)).length > 0 then
    .error (.ratingsUnconfirmed (s.ratings.filter (fun r => r.userConfirmed == false)).length)
  else
    .ok ({ s with status := .completed, summary := some (generateSummary summaryGen) },
      { metricsCalculated := metricsOk })

/-! ### API endpoint wrappers (`chat_surveys.py`) -/

/-- The pydantic bound on `RatingConfirmation.adjusted_score`
(`Field(ge=1.0, le=5.0)`), enforced before the handler runs. -/
def validAdjustedScore : Option ℚ → Bool
  | none => true
  | some a => decide (1 ≤ a) && decide (a ≤ 5)

/-- `POST /{token}/message`: the endpoint repeats the terminal-status guard
before delegating to the service. -/
def sendChatMessageApi (s : SessionState) (content : String) (gen : Option String)
    (extractOut : Option (List RawRating)) (wrapUpOut : Option String) :
    Except ServiceError (SessionState × TurnResult) :=
  if s.status = .completed ∨ s.status = .abandoned then
    .error .invalidSessionState
  else
    processUserMessage s content gen extractOut wrapUpOut

/-- `POST /{token}/confirm-rating`: request-body validation happens first
(422 on an out-of-range adjusted score), then the handler rejects any session
not in the `RATING_CONFIRMATION` phase, then the service runs. -/
def confirmRatingApi (s : SessionState) (dimension : FrictionType) (confirmed : Bool)
    (adjustedScore : Option ℚ) (genAck : Option String) :
    Except ServiceError (SessionState × ConfirmResult) :=
  if !(validAdjustedScore adjustedScore) then
    .error .validationError
  else if s.status ≠ .ratingConfirmation then
    .error .invalidSessionState
  else
    confirmRating s dimension confirmed adjustedScore genAck

/-- `POST /{token}/abandon`: rejects a `COMPLETED` session, otherwise sets the
status to `ABANDONED` (also when it already is). -/
def abandonApi (s : SessionState) : Except ServiceError SessionState :=
  if s.status = .completed then
    .error .cannotAbandonCompleted
  else
    .ok {s with status := .abandoned}

/-! ### Concrete states and scenario runs used to instantiate the theorems -/

/-- All six coverage flags set. -/
def DimCovered.allTrue : DimCovered := ⟨true, true, true, true, true, true⟩

/-- A sample extracted-rating row (inferred score 4, confidence 0.8). -/
def exRatingRow (d : FrictionType) (idx : ℕ) (confirmed : Bool) : ChatExtractedRating :=
  { dimension := d
    aiInferredScore := 4
    aiConfidence := 0.8
    aiReasoning := some "sample reasoning"
    userConfirmed := confirmed
    userAdjustedScore := none
    finalScore := normalizeScore 4
    keyQuotes := some []
    summaryComment := none
    createdAt := idx }

/-- A session in the confirmation phase with two unconfirmed ratings. -/
def exConfirmSession : SessionState :=
  { status := .ratingConfirmation
    currentDimension := some .safety
    dimensionsCovered := DimCovered.allTrue
    messages := []
    ratings := [exRatingRow .clarity 0 false, exRatingRow .tooling 1 false]
    summary := none }

/-- A session in the confirmation phase with every rating confirmed. -/
def exAllConfirmedSession : SessionState :=
  { status := .ratingConfirmation
    currentDimension := some .safety
    dimensionsCovered := DimCovered.allTrue
    messages := []
    ratings := [exRatingRow .clarity 0 true, exRatingRow .tooling 1 true]
    summary := none }

/-- A completed session. -/
def exCompletedSession : SessionState :=
  { status := .completed
    currentDimension := none
    dimensionsCovered := DimCovered.allTrue
    messages := []
    ratings := [exRatingRow .clarity 0 true]
    summary := none }

/-- One turn of the coverage scenario: the generation collaborator replies
"ok", so the keyword classifier runs on "ok " ++ the user text; the
extraction and wrap-up oracles are both failures (their values only matter in
the turn that completes coverage). -/
def scenarioTurn (s : SessionState) (u : String) : SessionState :=
  match processUserMessage s u (some "ok") none none with
  | .ok p => p.1
  | .error _ => s

/-- A full interview: session start (opening "hi" at sequence 0), then six
turns whose user texts each hit exactly one keyword of one dimension, in enum
order, so the sixth turn completes coverage and triggers the confirmation
hand-off. -/
def coverageScenarioFinal : SessionState :=
  scenarioTurn
    (scenarioTurn
      (scenarioTurn
        (scenarioTurn
          (scenarioTurn
            (scenarioTurn (startSession (some "hi") "engineer") "requirements")
            "tools")
          "bureaucracy")
        "redo")
      "queue")
    "admit"

/-- An extraction-output entry for clarity with inferred score 4, no
confidence, reasoning or quote keys. -/
def clarityRawNoConfidence : RawRating :=
  { dimension := "clarity"
    score := 4
    confidence := none
    reasoning := none
    keyQuotes := none
    summaryComment := none }

/-- A second extraction-output entry for the same clarity dimension (score 2). -/
def clarityRawDuplicate : RawRating :=
  { dimension := "clarity"
    score := 2
    confidence := none
    reasoning := none
    keyQuotes := none
    summaryComment := none }

/-! ## Helper lemmas -/

lemma ftv_value (d : FrictionType) : frictionTypeOfValue d.value = some d := by
  cases d <;> rfl

lemma ftv_eq_value {s : String} {d : FrictionType}
    (h : frictionTypeOfValue s = some d) : s = d.value := by
  have hp := List.find?_some h
  exact (eq_of_beq hp).symm

lemma some_beq_some (a b : FrictionType) : ((some a == some b) : Bool) = (a == b) := rfl

lemma countP_ratingRowsAux (idx : ℕ) (l : List RawRating) (d : FrictionType) :
    (ratingRowsAux idx l).countP (fun r => r.dimension == d)
      = l.countP (fun e => frictionTypeOfValue e.dimension == some d) := by
  induction l generalizing idx with
  | nil => rfl
  | cons e rest ih =>
      rw [List.countP_cons]
      cases hf : frictionTypeOfValue e.dimension with
      | none =>
          simp only [ratingRowsAux, hf]
          rw [ih]
          simp
      | some d2 =>
          simp only [ratingRowsAux, hf]
          rw [List.countP_cons, ih]
          simp [makeRatingRow, some_beq_some]

lemma ratingRowsAux_mem_intro : ∀ {l : List RawRating} {e : RawRating} {d : FrictionType},
    e ∈ l → frictionTypeOfValue e.dimension = some d →
    ∀ idx, ∃ j, makeRatingRow j d e ∈ ratingRowsAux idx l := by
  intro l
  induction l with
  | nil =>
      intro e d he _ _
      cases he
  | cons a rest ih =>
      intro e d he hf idx
      rcases List.mem_cons.mp he with rfl | he2
      · refine ⟨idx, ?_⟩
        simp only [ratingRowsAux, hf]
        exact List.mem_cons_self _ _
      · cases hfa : frictionTypeOfValue a.dimension with
        | none =>
            simp only [ratingRowsAux, hfa]
            exact ih he2 hf idx
        | some d2 =>
            obtain ⟨j, hj⟩ := ih he2 hf (idx + 1)
            refine ⟨j, ?_⟩
            simp only [ratingRowsAux, hfa]
            exact List.mem_cons_of_mem _ hj

lemma ratingRowsAux_mem_elim : ∀ {l : List RawRating} {idx : ℕ} {r : ChatExtractedRating},
    r ∈ ratingRowsAux idx l →
    ∃ e ∈ l, ∃ j, frictionTypeOfValue e.dimension = some r.dimension
      ∧ r = makeRatingRow j r.dimension e := by
  intro l
  induction l with
  | nil =>
      intro idx r hr
      simp [ratingRowsAux] at hr
  | cons a rest ih =>
      intro idx r hr
      cases hfa : frictionTypeOfValue a.dimension with
      | none =>
          rw [ratingRowsAux] at hr
          simp only [hfa] at hr
          obtain ⟨e, he, j, hj⟩ := ih hr
          exact ⟨e, List.mem_cons_of_mem _ he, j, hj⟩
      | some d2 =>
          rw [ratingRowsAux] at hr
          simp only [hfa] at hr
          rcases List.mem_cons.mp hr with rfl | hr2
          · exact ⟨a, List.mem_cons_self _ _, idx, hfa, rfl⟩
          · obtain ⟨e, he, j, hj⟩ := ih hr2
            exact ⟨e, List.mem_cons_of_mem _ he, j, hj⟩

lemma countP_beq_filter_of_nodup {α} [DecidableEq α] :
    ∀ (l : List α), l.Nodup → ∀ d ∈ l, ∀ p : α → Bool,
      (l.filter p).countP (fun x => x == d) = if p d then 1 else 0 := by
  intro l
  induction l with
  | nil =>
      intro _ d hd _
      cases hd
  | cons a as ih =>
      intro hnd d hd p
      rw [List.nodup_cons] at hnd
      rcases List.mem_cons.mp hd with rfl | hd2
      · have hz : (as.filter p).countP (fun x => x == d) = 0 := by
          refine List.countP_eq_zero.mpr (fun x hx => ?_)
          have hxas := (List.mem_filter.mp hx).1
          have hne : x ≠ d := fun hxd => hnd.1 (hxd ▸ hxas)
          simp [hne]
        by_cases hpa : p d
        · rw [List.filter_cons_of_pos hpa, List.countP_cons, hz, if_pos hpa]
          simp
        · rw [List.filter_cons_of_neg hpa, hz, if_neg hpa]
      · have hne : (a == d) = false := by
          have : a ≠ d := fun h => hnd.1 (h ▸ hd2)
          simp [this]
        by_cases hpa : p a
        · rw [List.filter_cons_of_pos hpa, List.countP_cons, hne, ih hnd.2 d hd2 p]
          simp
        · rw [List.filter_cons_of_neg hpa, ih hnd.2 d hd2 p]

lemma mem_all (d : FrictionType) : d ∈ FrictionType.all := by
  cases d <;> decide

lemma nodup_all : FrictionType.all.Nodup := by decide

lemma contains_value_iff (entries : List RawRating) (d : FrictionType) :
    (entries.map RawRating.dimension).contains d.value = true
      ↔ 0 < entries.countP (fun e => frictionTypeOfValue e.dimension == some d) := by
  rw [List.countP_pos_iff]
  constructor
  · intro h
    have hmem := List.elem_iff.mp h
    obtain ⟨e, he, hev⟩ := List.mem_map.mp hmem
    refine ⟨e, he, ?_⟩
    have : frictionTypeOfValue e.dimension = some d := by
      rw [hev, ftv_value]
    simp [this]
  · intro ⟨e, he, hp⟩
    have hfe : frictionTypeOfValue e.dimension = some d := eq_of_beq hp
    have hev : e.dimension = d.value := ftv_eq_value hfe
    exact List.elem_iff.mpr (List.mem_map.mpr ⟨e, he, hev⟩)

lemma countP_missingFill (entries : List RawRating) (d : FrictionType) :
    ((FrictionType.all.filter
          (fun x => !((entries.map RawRating.dimension).contains x.value))).map
        neutralMissingRaw).countP (fun e => frictionTypeOfValue e.dimension == some d)
      = if (entries.map RawRating.dimension).contains d.value then 0 else 1 := by
  rw [List.countP_map]
  have hfun : ((fun e => frictionTypeOfValue e.dimension == some d) ∘ neutralMissingRaw)
      = fun x => x == d := by
    funext x
    show (frictionTypeOfValue x.value == some d) = (x == d)
    rw [ftv_value, some_beq_some]
  rw [hfun, countP_beq_filter_of_nodup FrictionType.all nodup_all d (mem_all d)]
  cases hc : (entries.map RawRating.dimension).contains d.value <;> simp [hc]

lemma find?_updateFirst_mem {α} {p : α → Bool} {f : α → α} {l : List α} {a : α}
    (h : l.find? p = some a) : f a ∈ updateFirst p f l := by
  induction l with
  | nil => simp [List.find?] at h
  | cons x xs ih =>
      by_cases hp : p x
      · rw [List.find?_cons_of_pos _ hp] at h
        cases h
        simp [updateFirst, hp]
      · rw [List.find?_cons_of_neg _ hp] at h
        simp only [updateFirst, hp, if_neg, Bool.false_eq_true, ite_false]
        exact List.mem_cons_of_mem _ (ih h)

lemma applyConfirmation_dimension (c : Bool) (a : Option ℚ) (r : ChatExtractedRating) :
    (applyConfirmation c a r).dimension = r.dimension := by
  cases c <;> cases a <;> rfl

lemma applyConfirmation_userConfirmed (c : Bool) (a : Option ℚ) (r : ChatExtractedRating) :
    (applyConfirmation c a r).userConfirmed = true := by
  cases c <;> cases a <;> rfl

lemma applyConfirmation_aiInferredScore (c : Bool) (a : Option ℚ) (r : ChatExtractedRating) :
    (applyConfirmation c a r).aiInferredScore = r.aiInferredScore := by
  cases c <;> cases a <;> rfl

lemma applyConfirmation_idem (c : Bool) (a : Option ℚ) (r : ChatExtractedRating) :
    applyConfirmation c a (applyConfirmation c a r) = applyConfirmation c a r := by
  cases c <;> cases a <;> rfl

lemma find?_updateFirst {α} {p : α → Bool} {f : α → α} (hpf : ∀ x, p (f x) = p x)
    (l : List α) : (updateFirst p f l).find? p = (l.find? p).map f := by
  induction l with
  | nil => rfl
  | cons x xs ih =>
      by_cases hp : p x
      · rw [updateFirst, if_pos hp, List.find?_cons_of_pos _ ((hpf x).trans hp),
          List.find?_cons_of_pos _ hp]
        rfl
      · rw [updateFirst, if_neg hp, List.find?_cons_of_neg _ hp,
          List.find?_cons_of_neg _ hp, ih]

lemma updateFirst_idem {α} {p : α → Bool} {f : α → α} (hpf : ∀ x, p (f x) = p x)
    (hff : ∀ x, f (f x) = f x) (l : List α) :
    updateFirst p f (updateFirst p f l) = updateFirst p f l := by
  induction l with
  | nil => rfl
  | cons x xs ih =>
      by_cases hp : p x
      · rw [updateFirst, if_pos hp, updateFirst, if_pos ((hpf x).trans hp), hff]
      · rw [updateFirst, if_neg hp, updateFirst, if_neg hp, ih]

lemma updateFirst_countP {α} {p q : α → Bool} {f : α → α} (hqf : ∀ x, q (f x) = q x)
    (l : List α) : (updateFirst p f l).countP q = l.countP q := by
  induction l with
  | nil => rfl
  | cons x xs ih =>
      by_cases hp : p x
      · rw [updateFirst, if_pos hp, List.countP_cons, List.countP_cons, hqf]
      · rw [updateFirst, if_neg hp, List.countP_cons, List.countP_cons, ih]

lemma updateFirst_length {α} (p : α → Bool) (f : α → α) (l : List α) :
    (updateFirst p f l).length = l.length := by
  induction l with
  | nil => rfl
  | cons x xs ih =>
      by_cases hp : p x
      · rw [updateFirst, if_pos hp]
        rfl
      · rw [updateFirst, if_neg hp, List.length_cons, List.length_cons, ih]

/-- The successful (`rating found`) case of `confirm_rating`, characterized:
the found row is updated in place, the returned rating is that updated row,
and the next-dimension / all-confirmed outputs come from
`_get_next_unconfirmed_rating` on the updated table. -/
lemma confirmRating_ok (s : SessionState) (d : FrictionType) (c : Bool) (a : Option ℚ)
    (g : Option String) (r0 : ChatExtractedRating)
    (hfind : s.ratings.find? (fun r => r.dimension == d) = some r0) :
    ∃ s' res, confirmRating s d c a g = .ok (s', res)
      ∧ s'.ratings
          = updateFirst (fun r => r.dimension == d) (applyConfirmation c a) s.ratings
      ∧ res.rating = applyConfirmation c a r0
      ∧ res.nextDimension = (getNextUnconfirmed s'.ratings).map ChatExtractedRating.dimension
      ∧ res.allConfirmed = (getNextUnconfirmed s'.ratings).isNone
      ∧ s.messages.length ≤ s'.messages.length := by
  rcases hnext : getNextUnconfirmed
      (updateFirst (fun r => r.dimension == d) (applyConfirmation c a) s.ratings)
    with _ | nr
  · refine ⟨⟨s.status, s.currentDimension, s.dimensionsCovered, s.messages,
        updateFirst (fun r => r.dimension == d) (applyConfirmation c a) s.ratings,
        s.summary⟩,
      ⟨applyConfirmation c a r0, none, true, none⟩, ?_, rfl, rfl, ?_, ?_, le_refl _⟩
    · rw [confirmRating, hfind]
      simp only [hnext]
    · simp [hnext]
    · simp [hnext]
  · refine ⟨⟨s.status, s.currentDimension, s.dimensionsCovered,
        s.messages ++ [⟨.assistant,
          (match g with
            | some c => c
            | none => fallbackConfirmationContent nr.dimension nr.aiInferredScore),
          some nr.dimension, true, s.messages.length⟩],
        updateFirst (fun r => r.dimension == d) (applyConfirmation c a) s.ratings,
        s.summary⟩,
      ⟨applyConfirmation c a r0, some nr.dimension, false,
        some ⟨.assistant,
          (match g with
            | some c => c
            | none => fallbackConfirmationContent nr.dimension nr.aiInferredScore),
          some nr.dimension, true, s.messages.length⟩⟩, ?_, rfl, rfl, ?_, ?_, ?_⟩
    · rw [confirmRating, hfind]
      simp only [hnext]
    · simp [hnext]
    · simp [hnext]
    · simp

lemma earliestByCreatedAt_eq_none {l : List ChatExtractedRating} :
    earliestByCreatedAt l = none ↔ l = [] := by
  cases l with
  | nil => simp [earliestByCreatedAt]
  | cons r rs =>
      rw [earliestByCreatedAt]
      rcases h : earliestByCreatedAt rs with _ | m
      · simp
      · simp only [h]
        split <;> simp

lemma earliestByCreatedAt_mem {l : List ChatExtractedRating} {r0 : ChatExtractedRating}
    (h : earliestByCreatedAt l = some r0) : r0 ∈ l := by
  induction l with
  | nil => simp [earliestByCreatedAt] at h
  | cons r rs ih =>
      rw [earliestByCreatedAt] at h
      rcases h2 : earliestByCreatedAt rs with _ | m <;> simp only [h2] at h
      · cases h
        exact List.mem_cons_self _ _
      · by_cases hle : r.createdAt ≤ m.createdAt
        · rw [if_pos hle] at h
          cases h
          exact List.mem_cons_self _ _
        · rw [if_neg hle] at h
          cases h
          exact List.mem_cons_of_mem _ (ih h2)

lemma earliestByCreatedAt_min {l : List ChatExtractedRating} :
    ∀ {r0 : ChatExtractedRating}, earliestByCreatedAt l = some r0 →
      ∀ r ∈ l, r0.createdAt ≤ r.createdAt := by
  induction l with
  | nil =>
      intro r0 h
      simp [earliestByCreatedAt] at h
  | cons r rs ih =>
      intro r0 h
      rw [earliestByCreatedAt] at h
      rcases h2 : earliestByCreatedAt rs with _ | m <;> simp only [h2] at h
      · have hnil : rs = [] := earliestByCreatedAt_eq_none.mp h2
        cases h
        subst hnil
        intro x hx
        rcases List.mem_singleton.mp hx with rfl
        exact le_refl _
      · by_cases hle : r.createdAt ≤ m.createdAt
        · rw [if_pos hle] at h
          cases h
          intro x hx
          rcases List.mem_cons.mp hx with rfl | hx
          · exact le_refl _
          · exact le_trans hle (ih h2 x hx)
        · rw [if_neg hle] at h
          cases h
          intro x hx
          rcases List.mem_cons.mp hx with rfl | hx
          · exact le_of_lt (lt_of_not_le hle)
          · exact ih h2 x hx

/-! ## Claim theorems -/

/-- C2: whenever `confirm_rating` succeeds, the stored rating is confirmed and
its `final_score` is `((s - 1) / 4) * 100`, where `s` is the user-supplied
adjusted score when confirmed is false and an adjustment was supplied, and
the AI-inferred score of the targeted row otherwise; and the normalization
maps raw scores 1, 3, 5 to 0, 50, 100. -/
theorem confirm_final_score_formula :
    (∀ (s : SessionState) (d : FrictionType) (c : Bool) (a : Option ℚ) (g : Option String)
        (r0 : ChatExtractedRating),
        s.ratings.find? (fun r => r.dimension == d) = some r0 →
        ∃ s' res, confirmRating s d c a g = .ok (s', res)
          ∧ res.rating.userConfirmed = true
          ∧ res.rating ∈ s'.ratings
          ∧ res.rating.finalScore
              = ((match c, a with
                  | false, some x => x
                  | _, _ => r0.aiInferredScore) - 1) / 4 * 100)
    ∧ normalizeScore 1 = 0 ∧ normalizeScore 3 = 50 ∧ normalizeScore 5 = 100 := by
  refine ⟨fun s d c a g r0 hfind => ?_, by norm_num [normalizeScore],
    by norm_num [normalizeScore], by norm_num [normalizeScore]⟩
  obtain ⟨s', res, hcr, hrat, hr, -, -, -⟩ := confirmRating_ok s d c a g r0 hfind
  refine ⟨s', res, hcr, ?_, ?_, ?_⟩
  · rw [hr, applyConfirmation_userConfirmed]
  · rw [hr, hrat]
    exact find?_updateFirst_mem hfind
  · rw [hr]
    cases c <;> cases a <;> simp [applyConfirmation, normalizeScore]

/-- C2 witness: adjusting the clarity rating to 2 yields a stored final score
of `(2 - 1) / 4 * 100 = 25`. -/
theorem confirm_final_score_formula_witness :
    ∃ s' res, confirmRating exConfirmSession .clarity false (some 2) none = .ok (s', res)
      ∧ res.rating.userConfirmed = true
      ∧ res.rating ∈ s'.ratings
      ∧ res.rating.finalScore = ((2 : ℚ) - 1) / 4 * 100 :=
  confirm_final_score_formula.1 exConfirmSession .clarity false (some 2) none
    (exRatingRow .clarity 0 false) rfl

/-- C7: the next rating presented for confirmation is always the unconfirmed
row with the least creation order — `_get_next_unconfirmed_rating` returns
`none` exactly when every rating is confirmed, and otherwise an unconfirmed
row whose `created_at` is minimal among all unconfirmed rows (a deterministic
function of the rating table, independent of scores); and every successful
`confirm_rating` reports exactly that selection as `next_dimension`. -/
theorem next_rating_is_earliest_unconfirmed :
    (∀ ratings : List ChatExtractedRating,
        (getNextUnconfirmed ratings = none ↔ ∀ r ∈ ratings, r.userConfirmed = true))
    ∧ (∀ (ratings : List ChatExtractedRating) (r0 : ChatExtractedRating),
        getNextUnconfirmed ratings = some r0 →
          r0 ∈ ratings ∧ r0.userConfirmed = false
            ∧ ∀ r ∈ ratings, r.userConfirmed = false → r0.createdAt ≤ r.createdAt)
    ∧ (∀ (s : SessionState) (d : FrictionType) (c : Bool) (a : Option ℚ) (g : Option String)
        (s' : SessionState) (res : ConfirmResult),
        confirmRating s d c a g = .ok (s', res) →
          res.nextDimension
            = (getNextUnconfirmed s'.ratings).map ChatExtractedRating.dimension) := by
  refine ⟨fun ratings => ?_, fun ratings r0 h => ?_, fun s d c a g s' res h => ?_⟩
  · rw [getNextUnconfirmed, earliestByCreatedAt_eq_none, List.filter_eq_nil_iff]
    constructor
    · intro hall r hr
      have := hall r hr
      simpa using this
    · intro hall r hr
      simp [hall r hr]
  · have hmem := earliestByCreatedAt_mem h
    have hin := List.mem_filter.mp hmem
    refine ⟨hin.1, by simpa using hin.2, fun r hr hc => ?_⟩
    exact earliestByCreatedAt_min h r (List.mem_filter.mpr ⟨hr, by simp [hc]⟩)
  · rcases hfind : s.ratings.find? (fun r => r.dimension == d) with _ | r0
    · rw [confirmRating, hfind] at h
      simp at h
    · obtain ⟨s'', res'', hcr, -, -, hnd, -, -⟩ := confirmRating_ok s d c a g r0 hfind
      rw [hcr] at h
      simp only [Except.ok.injEq, Prod.mk.injEq] at h
      obtain ⟨rfl, rfl⟩ := h
      exact hnd

/-- C7 witness: on the two-unconfirmed-rating table the selection is the
clarity row, created first. -/
theorem next_rating_is_earliest_unconfirmed_witness :
    exRatingRow .clarity 0 false ∈ exConfirmSession.ratings
    ∧ (exRatingRow .clarity 0 false).userConfirmed = false
    ∧ ∀ r ∈ exConfirmSession.ratings, r.userConfirmed = false →
        (exRatingRow .clarity 0 false).createdAt ≤ r.createdAt :=
  next_rating_is_earliest_unconfirmed.2.1 exConfirmSession.ratings
    (exRatingRow .clarity 0 false) rfl

/-- C8: re-running `confirm_rating` on an already-confirmed rating with the
same parameters is idempotent — it succeeds, changes no rating row (in
particular it neither duplicates the `(session, dimension)` row nor moves
`final_score`), and returns the same rating. -/
theorem reconfirm_same_parameters_idempotent :
    ∀ (s : SessionState) (d : FrictionType) (c : Bool) (a : Option ℚ) (g g' : Option String)
      (s1 : SessionState) (res1 : ConfirmResult),
      confirmRating s d c a g = .ok (s1, res1) →
      ∃ s2 res2, confirmRating s1 d c a g' = .ok (s2, res2)
        ∧ s2.ratings = s1.ratings
        ∧ res2.rating = res1.rating
        ∧ res2.rating.finalScore = res1.rating.finalScore
        ∧ s2.ratings.countP (fun r => r.dimension == d)
            = s.ratings.countP (fun r => r.dimension == d)
        ∧ s2.ratings.length = s.ratings.length := by
  intro s d c a g g' s1 res1 h
  have hpf : ∀ x : ChatExtractedRating,
      ((applyConfirmation c a x).dimension == d) = (x.dimension == d) := fun x => by
    rw [applyConfirmation_dimension]
  rcases hfind : s.ratings.find? (fun r => r.dimension == d) with _ | r0
  · rw [confirmRating, hfind] at h
    simp at h
  · obtain ⟨s1', res1', hcr, hrat1, hr1, -, -, -⟩ := confirmRating_ok s d c a g r0 hfind
    rw [hcr] at h
    simp only [Except.ok.injEq, Prod.mk.injEq] at h
    obtain ⟨rfl, rfl⟩ := h
    have hfind2 : s1'.ratings.find? (fun r => r.dimension == d)
        = some (applyConfirmation c a r0) := by
      rw [hrat1, find?_updateFirst hpf, hfind]
      rfl
    obtain ⟨s2, res2, hcr2, hrat2, hr2, -, -, -⟩ :=
      confirmRating_ok s1' d c a g' (applyConfirmation c a r0) hfind2
    have hsame : s2.ratings = s1'.ratings := by
      rw [hrat2, hrat1, updateFirst_idem hpf (applyConfirmation_idem c a)]
    refine ⟨s2, res2, hcr2, hsame, ?_, ?_, ?_, ?_⟩
    · rw [hr2, hr1, applyConfirmation_idem]
    · rw [hr2, hr1, applyConfirmation_idem]
    · rw [hsame, hrat1, updateFirst_countP hpf]
    · rw [hsame, hrat1, updateFirst_length]

/-- C8 witness: confirming the clarity rating and then re-confirming it with
identical parameters. -/
theorem reconfirm_same_parameters_idempotent_witness :
    ∃ s1 res1, confirmRating exConfirmSession .clarity true none none = .ok (s1, res1)
      ∧ ∃ s2 res2, confirmRating s1 .clarity true none none = .ok (s2, res2)
        ∧ s2.ratings = s1.ratings
        ∧ res2.rating = res1.rating
        ∧ res2.rating.finalScore = res1.rating.finalScore
        ∧ s2.ratings.countP (fun r => r.dimension == .clarity)
            = exConfirmSession.ratings.countP (fun r => r.dimension == .clarity)
        ∧ s2.ratings.length = exConfirmSession.ratings.length := by
  obtain ⟨s1, res1, hcr, -, -, -, -, -⟩ :=
    confirmRating_ok exConfirmSession .clarity true none none
      (exRatingRow .clarity 0 false) rfl
  exact ⟨s1, res1, hcr,
    reconfirm_same_parameters_idempotent exConfirmSession .clarity true none none none
      s1 res1 hcr⟩

/-- C6: a confirm-rating request whose `adjustedScore` lies outside `[1, 5]`
is rejected by the request-body validation (`RatingConfirmation`'s bound on
`adjusted_score`) before the handler or service runs, so no state is touched
and the targeted rating remains unconfirmed. -/
theorem confirm_rejects_out_of_range_score (s : SessionState) (d : FrictionType) (c : Bool)
    (a : ℚ) (g : Option String) (h : a < 1 ∨ 5 < a) :
    confirmRatingApi s d c (some a) g = .error .validationError := by
  have hv : validAdjustedScore (some a) = false := by
    rcases h with h | h
    · simp [validAdjustedScore, not_le.mpr h]
    · simp [validAdjustedScore, not_le.mpr h]
  simp [confirmRatingApi, hv]

/-- C6 witness: `adjustedScore = 6.0` against a confirmation-phase session. -/
theorem confirm_rejects_out_of_range_score_witness :
    confirmRatingApi exConfirmSession .clarity false (some 6) none = .error .validationError :=
  confirm_rejects_out_of_range_score exConfirmSession .clarity false 6 none
    (Or.inr (by norm_num))

/-- C5: against a `COMPLETED` or `ABANDONED` session, `process_user_message`
(service layer and `POST /message` endpoint alike) and the
`POST /confirm-rating` endpoint (whose phase guard also excludes both
terminal states) fail with an invalid-session-state error; an `.error`
result carries no successor state, so the session and its ratings are
untouched.  The request is assumed to pass body validation, which runs
first. -/
theorem terminal_session_rejects_mutation (s : SessionState)
    (h : s.status = .completed ∨ s.status = .abandoned)
    (content : String) (gen : Option String) (eo : Option (List RawRating)) (wo : Option String)
    (d : FrictionType) (c : Bool) (a : Option ℚ) (g : Option String)
    (hvalid : validAdjustedScore a = true) :
    processUserMessage s content gen eo wo = .error .invalidSessionState
    ∧ sendChatMessageApi s content gen eo wo = .error .invalidSessionState
    ∧ confirmRatingApi s d c a g = .error .invalidSessionState := by
  have hne : s.status ≠ .ratingConfirmation := by
    rcases h with h | h <;> simp [h]
  refine ⟨?_, ?_, ?_⟩
  · rw [processUserMessage.eq_def, if_pos h]
  · rw [sendChatMessageApi, if_pos h]
  · simp [confirmRatingApi, hvalid, hne]

/-- C5 witness: a completed session rejects both operations. -/
theorem terminal_session_rejects_mutation_witness :
    processUserMessage exCompletedSession "hello" none none none = .error .invalidSessionState
    ∧ sendChatMessageApi exCompletedSession "hello" none none none = .error .invalidSessionState
    ∧ confirmRatingApi exCompletedSession .clarity true none none = .error .invalidSessionState :=
  terminal_session_rejects_mutation exCompletedSession (Or.inl rfl)
    "hello" none none none .clarity true none none (by decide)

/-- C9 counterexample: `AbandonSession` is not idempotent on every terminal
session — against a `COMPLETED` (terminal) session it is rejected with an
error instead of succeeding as a no-op. -/
theorem abandon_completed_errors :
    abandonApi exCompletedSession = .error .cannotAbandonCompleted := by
  rfl

/-- C9 (amended): `AbandonSession` moves any non-`Completed` session —
including an already-`Abandoned` one, so a second call in a row is a no-op
success — to `Abandoned`, but a `Completed` session is rejected with an
error. -/
theorem abandon_amended :
    (∀ s : SessionState, s.status ≠ .completed →
        abandonApi s = .ok {s with status := .abandoned})
    ∧ (∀ s s1 : SessionState, abandonApi s = .ok s1 → abandonApi s1 = .ok s1)
    ∧ (∀ s : SessionState, s.status = .completed →
        abandonApi s = .error .cannotAbandonCompleted) := by
  refine ⟨fun s h => ?_, fun s s1 h => ?_, fun s h => ?_⟩
  · rw [abandonApi, if_neg h]
  · by_cases hs : s.status = .completed
    · rw [abandonApi, if_pos hs] at h
      cases h
    · rw [abandonApi, if_neg hs] at h
      cases h
      rfl
  · rw [abandonApi, if_pos h]

/-- C9 witness: abandoning an in-confirmation session succeeds, the repeat
call is a no-op success, and a completed session is rejected. -/
theorem abandon_amended_witness :
    abandonApi exConfirmSession = .ok {exConfirmSession with status := .abandoned}
    ∧ abandonApi {exConfirmSession with status := .abandoned}
        = .ok {exConfirmSession with status := .abandoned}
    ∧ abandonApi exCompletedSession = .error .cannotAbandonCompleted :=
  ⟨abandon_amended.1 exConfirmSession (by decide),
    abandon_amended.2.1 exConfirmSession _ (abandon_amended.1 exConfirmSession (by decide)),
    abandon_amended.2.2 exCompletedSession rfl⟩

/-- C4: `complete_session` rejects with an error while any rating is
unconfirmed, so no session completes with an unconfirmed rating; once every
rating is confirmed it succeeds and marks the session `COMPLETED`, for any
summary-generation outcome (the failure outcome stores the stub summary) and
any metrics hand-off outcome. -/
theorem complete_session_requires_confirmations :
    (∀ (s : SessionState) (sg : Option SummaryPayload) (mo : Bool),
        (∃ r ∈ s.ratings, r.userConfirmed = false) →
        completeSession s sg mo
          = .error (.ratingsUnconfirmed
              (s.ratings.filter (fun r => r.userConfirmed == false)).length))
    ∧ (∀ (s : SessionState) (sg : Option SummaryPayload) (mo : Bool),
        (∀ r ∈ s.ratings, r.userConfirmed = true) →
        completeSession s sg mo
          = .ok ({s with status := .completed, summary := some (generateSummary sg)},
              {metricsCalculated := mo}))
    ∧ (generateSummary none).executiveSummary = "Summary generation failed." := by
  refine ⟨fun s sg mo h => ?_, fun s sg mo h => ?_, rfl⟩
  · obtain ⟨r, hr, hc⟩ := h
    have hmem : r ∈ s.ratings.filter (fun r => r.userConfirmed == false) :=
      List.mem_filter.mpr ⟨hr, by simp [hc]⟩
    rw [completeSession, if_pos (List.length_pos_of_mem hmem)]
  · have hnil : s.ratings.filter (fun r => r.userConfirmed == false) = [] :=
      List.filter_eq_nil_iff.mpr (fun r hr => by simp [h r hr])
    rw [completeSession, hnil]
    simp

/-- C4 witness: an all-confirmed session completes with the stub summary and
a failed metrics hand-off, while the two-unconfirmed session is rejected. -/
theorem complete_session_requires_confirmations_witness :
    completeSession exConfirmSession none false = .error (.ratingsUnconfirmed 2)
    ∧ completeSession exAllConfirmedSession none false
        = .ok ({exAllConfirmedSession with
                  status := .completed, summary := some (generateSummary none)},
            {metricsCalculated := false}) :=
  ⟨by
    have h := complete_session_requires_confirmations.1 exConfirmSession none false
      ⟨exRatingRow .clarity 0 false, List.mem_cons_self _ _, rfl⟩
    exact h,
    complete_session_requires_confirmations.2.1 exAllConfirmedSession none false
      (by
        intro r hr
        simp only [exAllConfirmedSession, List.mem_cons, List.not_mem_nil, or_false] at hr
        rcases hr with rfl | rfl <;> rfl)⟩

/-- C1 counterexample: the claim fails as stated.  (a) When the structured
output lists the same dimension twice, a rating row is stored for each entry,
so the clarity dimension gets two rows instead of exactly one. (b) On a total
generation failure the rows carry the reasoning "Unable to extract rating
from conversation.", not the 'not adequately discussed' reasoning the claim
assigns to that path. -/
theorem extraction_rows_counterexample :
    (ratingRowsAux 0 (extractAllRatings (some [clarityRawNoConfidence, clarityRawDuplicate]))).countP
        (fun r => r.dimension == FrictionType.clarity) = 2
    ∧ (ratingRowsAux 0 (extractAllRatings none)).map ChatExtractedRating.aiReasoning
        = List.replicate 6 (some "Unable to extract rating from conversation.") := by
  constructor
  · decide
  · decide

/-- C1 (amended): when extraction runs, provided the structured output lists
each valid dimension at most once, exactly one rating row is stored per
friction dimension; a dimension absent from the output gets the neutral
default row (score 3, confidence 0.3, unconfirmed, normalized final score 50,
reasoning "Dimension not adequately discussed in conversation."), and on a
total generation failure every dimension gets exactly one neutral row whose
reasoning is "Unable to extract rating from conversation." — in every case
the extractor produces rows rather than failing. -/
theorem extraction_rows_amended :
    ∀ idx : ℕ,
      (∀ entries : List RawRating,
        (∀ d : FrictionType,
            entries.countP (fun e => frictionTypeOfValue e.dimension == some d) ≤ 1) →
        ∀ d : FrictionType,
          (ratingRowsAux idx (extractAllRatings (some entries))).countP
              (fun r => r.dimension == d) = 1
          ∧ ((entries.map RawRating.dimension).contains d.value = false →
              ∃ j, makeRatingRow j d (neutralMissingRaw d)
                ∈ ratingRowsAux idx (extractAllRatings (some entries))))
      ∧ (∀ d : FrictionType,
          (ratingRowsAux idx (extractAllRatings none)).countP
              (fun r => r.dimension == d) = 1
          ∧ ∃ j, makeRatingRow j d (neutralFailureRaw d)
              ∈ ratingRowsAux idx (extractAllRatings none))
      ∧ (∀ (j : ℕ) (d : FrictionType),
          (makeRatingRow j d (neutralMissingRaw d)).aiInferredScore = 3
          ∧ (makeRatingRow j d (neutralMissingRaw d)).aiConfidence = 0.3
          ∧ (makeRatingRow j d (neutralMissingRaw d)).userConfirmed = false
          ∧ (makeRatingRow j d (neutralMissingRaw d)).finalScore = 50
          ∧ (makeRatingRow j d (neutralMissingRaw d)).aiReasoning
              = some "Dimension not adequately discussed in conversation."
          ∧ (makeRatingRow j d (neutralFailureRaw d)).aiInferredScore = 3
          ∧ (makeRatingRow j d (neutralFailureRaw d)).aiConfidence = 0.3) := by
  intro idx
  refine ⟨fun entries hle d => ⟨?_, fun hmiss => ?_⟩, fun d => ⟨?_, ?_⟩, fun j d => ?_⟩
  · rw [countP_ratingRowsAux]
    show (entries ++ (FrictionType.all.filter
          (fun x => !((entries.map RawRating.dimension).contains x.value))).map
        neutralMissingRaw).countP
        (fun e => frictionTypeOfValue e.dimension == some d) = 1
    rw [List.countP_append, countP_missingFill]
    cases hc : (entries.map RawRating.dimension).contains d.value
    · have hzero : entries.countP (fun e => frictionTypeOfValue e.dimension == some d) = 0 := by
        by_contra hnz
        have hpos : 0 < entries.countP (fun e => frictionTypeOfValue e.dimension == some d) :=
          Nat.pos_of_ne_zero hnz
        rw [(contains_value_iff entries d).mpr hpos] at hc
        cases hc
      rw [hzero]
      simp
    · have hone : entries.countP (fun e => frictionTypeOfValue e.dimension == some d) = 1 :=
        le_antisymm (hle d) ((contains_value_iff entries d).mp hc)
      rw [hone]
      simp
  · have hmem : neutralMissingRaw d ∈ extractAllRatings (some entries) := by
      show neutralMissingRaw d ∈ entries ++ (FrictionType.all.filter
          (fun x => !((entries.map RawRating.dimension).contains x.value))).map
        neutralMissingRaw
      refine List.mem_append_right _ (List.mem_map.mpr ⟨d, ?_, rfl⟩)
      exact List.mem_filter.mpr ⟨mem_all d, by rw [hmiss]; rfl⟩
    have hf : frictionTypeOfValue (neutralMissingRaw d).dimension = some d := by
      show frictionTypeOfValue d.value = some d
      exact ftv_value d
    exact ratingRowsAux_mem_intro hmem hf idx
  · rw [countP_ratingRowsAux]
    show (FrictionType.all.map neutralFailureRaw).countP
        (fun e => frictionTypeOfValue e.dimension == some d) = 1
    rw [List.countP_map]
    have hfun : ((fun e => frictionTypeOfValue e.dimension == some d) ∘ neutralFailureRaw)
        = fun x => x == d := by
      funext x
      show (frictionTypeOfValue x.value == some d) = (x == d)
      rw [ftv_value, some_beq_some]
    rw [hfun]
    cases d <;> decide
  · have hmem : neutralFailureRaw d ∈ extractAllRatings none :=
      List.mem_map.mpr ⟨d, mem_all d, rfl⟩
    have hf : frictionTypeOfValue (neutralFailureRaw d).dimension = some d := by
      show frictionTypeOfValue d.value = some d
      exact ftv_value d
    exact ratingRowsAux_mem_intro hmem hf idx
  · refine ⟨rfl, rfl, rfl, ?_, rfl, rfl, rfl⟩
    show normalizeScore 3 = 50
    norm_num [normalizeScore]

/-- C1 witness: an empty structured output (trivially duplicate-free) yields
exactly one row for clarity, and that row is the stored neutral default. -/
theorem extraction_rows_amended_witness :
    (ratingRowsAux 0 (extractAllRatings (some []))).countP
        (fun r => r.dimension == FrictionType.clarity) = 1
    ∧ ∃ j, makeRatingRow j .clarity (neutralMissingRaw .clarity)
        ∈ ratingRowsAux 0 (extractAllRatings (some [])) :=
  ⟨((extraction_rows_amended 0).1 [] (fun _ => Nat.zero_le 1) .clarity).1,
    ((extraction_rows_amended 0).1 [] (fun _ => Nat.zero_le 1) .clarity).2 rfl⟩

/-- C10: every stored rating row either comes from an output entry for its
dimension — in which case its `ai_confidence` is that entry's confidence when
present and 0.8 when the confidence field is omitted — or is a neutral
default for a dimension absent from the output, carrying confidence 0.3 and
score 3; after a total extraction failure every row carries confidence 0.3.
So the 0.3 default is assigned exactly on the absent-dimension and
total-failure paths, while an omitted confidence on a present dimension
defaults to 0.8. -/
theorem confidence_defaults :
    (∀ (idx : ℕ) (entries : List RawRating) (r : ChatExtractedRating),
        r ∈ ratingRowsAux idx (extractAllRatings (some entries)) →
        (∃ e ∈ entries, frictionTypeOfValue e.dimension = some r.dimension
            ∧ r.aiConfidence = e.confidence.getD 0.8)
        ∨ ((entries.map RawRating.dimension).contains r.dimension.value = false
            ∧ r.aiConfidence = 0.3 ∧ r.aiInferredScore = 3))
    ∧ (∀ (idx : ℕ) (r : ChatExtractedRating),
        r ∈ ratingRowsAux idx (extractAllRatings none) → r.aiConfidence = 0.3)
    ∧ (∀ (j : ℕ) (d : FrictionType) (e : RawRating),
        e.confidence = none → (makeRatingRow j d e).aiConfidence = 0.8) := by
  refine ⟨fun idx entries r hr => ?_, fun idx r hr => ?_, fun j d e he => ?_⟩
  · obtain ⟨e, he, j, hf, hre⟩ := ratingRowsAux_mem_elim hr
    have he2 : e ∈ entries ++ (FrictionType.all.filter
          (fun x => !((entries.map RawRating.dimension).contains x.value))).map
        neutralMissingRaw := he
    rcases List.mem_append.mp he2 with hel | her
    · exact Or.inl ⟨e, hel, hf, by rw [hre]; rfl⟩
    · obtain ⟨x, hx, hxe⟩ := List.mem_map.mp her
      have hxf := List.mem_filter.mp hx
      have hxd : x = r.dimension := by
        have : frictionTypeOfValue x.value = some r.dimension := by
          rw [← hxe] at hf
          exact hf
        rw [ftv_value] at this
        exact Option.some_injective _ this
      refine Or.inr ⟨?_, ?_, ?_⟩
      · rw [← hxd]
        have := hxf.2
        cases hc : (entries.map RawRating.dimension).contains x.value
        · rfl
        · rw [hc] at this
          cases this
      · rw [hre, ← hxe]
        rfl
      · rw [hre, ← hxe]
        rfl
  · obtain ⟨e, he, j, hf, hre⟩ := ratingRowsAux_mem_elim hr
    obtain ⟨x, hx, hxe⟩ := List.mem_map.mp he
    rw [hre, ← hxe]
    rfl
  · rw [makeRatingRow]
    simp [he]

/-- C10 witness: a clarity entry with the confidence field omitted produces a
stored row with confidence 0.8, and the soundness disjunction holds at that
row. -/
theorem confidence_defaults_witness :
    ((∃ e ∈ [clarityRawNoConfidence],
        frictionTypeOfValue e.dimension
            = some (makeRatingRow 0 .clarity clarityRawNoConfidence).dimension
          ∧ (makeRatingRow 0 .clarity clarityRawNoConfidence).aiConfidence
              = e.confidence.getD 0.8)
      ∨ (([clarityRawNoConfidence].map RawRating.dimension).contains
            (makeRatingRow 0 .clarity clarityRawNoConfidence).dimension.value = false
          ∧ (makeRatingRow 0 .clarity clarityRawNoConfidence).aiConfidence = 0.3
          ∧ (makeRatingRow 0 .clarity clarityRawNoConfidence).aiInferredScore = 3))
    ∧ (makeRatingRow 0 .clarity clarityRawNoConfidence).aiConfidence = 0.8 :=
  ⟨confidence_defaults.1 0 [clarityRawNoConfidence]
      (makeRatingRow 0 .clarity clarityRawNoConfidence) (List.mem_cons_self _ _),
    confidence_defaults.2.2 0 .clarity clarityRawNoConfidence rfl⟩

/-- C3: evaluation of the full six-turn interview at the failing input.  The
code violates the gapless strictly-increasing sequence contract: in the turn
that completes coverage, `_start_rating_confirmation` computes the wrap-up
message's sequence from the `session.messages` collection loaded before the
turn's two inserts (which set only the `session_id` foreign key and never
refresh the loaded relationship), so the wrap-up message repeats the user
message's sequence number 11 instead of receiving 13: the stored sequences
are 0..12 followed by a second 11. -/
theorem wrap_up_sequence_collides :
    coverageScenarioFinal.status = .ratingConfirmation
    ∧ coverageScenarioFinal.messages.map ChatMessage.sequence
        = [0, 1, 2, 3, 4, 5, 6, 7, 8, 9, 10, 11, 12, 11]
    ∧ ¬ (coverageScenarioFinal.messages.map ChatMessage.sequence).Pairwise (· < ·)
    ∧ (coverageScenarioFinal.messages.map ChatMessage.sequence).count 11 = 2 := by
  refine ⟨by decide, by decide, ?_, by decide⟩
  intro hpw
  have h12 : (12 : ℕ) < 11 := by
    have heq : coverageScenarioFinal.messages.map ChatMessage.sequence
        = [0, 1, 2, 3, 4, 5, 6, 7, 8, 9, 10, 11, 12, 11] := by decide
    rw [heq] at hpw
    exact (List.pairwise_iff_getElem.mp hpw) 12 13 (by norm_num) (by norm_num) (by norm_num)
  exact absurd h12 (by norm_num)

end ChatSurvey
